import Mathlib

/-!
Shallow embedding of the character-descriptor corpus generator
(`validator.py`, `generator.py`) and proofs of the specification claims.

Text is modelled as `List Char` (Python `str`).  The validator's regular
expressions are fixed literal patterns, embedded as explicit searches with
Python's `\b` word-boundary semantics restricted to the ASCII + Cyrillic
repertoire that the patterns and the corpus use.
-/

namespace CharDesc

/-! ### Character classes (`validator.py` regexes) -/

/-- Whitespace recognised by Python's `str.strip()`, `str.isspace()` and
the regex class `\s`: this is the exact, complete Unicode set CPython
uses — tab through carriage return (U+0009–U+000D), the separators
U+001C–U+001F, space, NEL (U+0085), no-break space (U+00A0), Ogham space
(U+1680), the typographic spaces U+2000–U+200A, line/paragraph separator
(U+2028/U+2029), U+202F, U+205F and the ideographic space U+3000. -/
def isSpaceChar (c : Char) : Bool :=
  (decide (0x09 ≤ c.toNat) && decide (c.toNat ≤ 0x0d)) ||
  (decide (0x1c ≤ c.toNat) && decide (c.toNat ≤ 0x20)) ||
  decide (c.toNat = 0x85) ||
  decide (c.toNat = 0xa0) ||
  decide (c.toNat = 0x1680) ||
  (decide (0x2000 ≤ c.toNat) && decide (c.toNat ≤ 0x200a)) ||
  decide (c.toNat = 0x2028) ||
  decide (c.toNat = 0x2029) ||
  decide (c.toNat = 0x202f) ||
  decide (c.toNat = 0x205f) ||
  decide (c.toNat = 0x3000)

/-- Word character for Python's `\b` boundary: a subset of Python's
Unicode-wide `\w` covering ASCII letters/digits/underscore and the
Cyrillic letters а-я/А-Я/ё/Ё.  Every character listed here is `\w` in
Python, so every `\b` boundary of the program is a boundary of this model
(the model can only find more pattern matches, never fewer).  A theorem
whose hypotheses assert that a position is a word boundary therefore never
uses the complement of this set directly; it uses `isSafeBoundary`, whose
characters are non-word both here and in Python. -/
def isWordChar (c : Char) : Bool :=
  (decide (0x61 ≤ c.toNat) && decide (c.toNat ≤ 0x7a)) || -- a-z
  (decide (0x41 ≤ c.toNat) && decide (c.toNat ≤ 0x5a)) || -- A-Z
  (decide (0x30 ≤ c.toNat) && decide (c.toNat ≤ 0x39)) || -- 0-9
  decide (c.toNat = 0x5f) || -- underscore
  (decide (0x430 ≤ c.toNat) && decide (c.toNat ≤ 0x44f)) || -- а-я
  (decide (0x410 ≤ c.toNat) && decide (c.toNat ≤ 0x42f)) || -- А-Я
  decide (c.toNat = 0x451) || -- ё
  decide (c.toNat = 0x401) -- Ё

/-- Characters that are certainly not word characters, both in this model
and for Python's Unicode `\w`: the whitespace set together with common
ASCII punctuation (`. , ! ? : ; " ( ) -`).  A pattern occurrence followed
by such a character (or by the end of the text) has a word boundary after
it in the program as well as in the model. -/
def isSafeBoundary (c : Char) : Bool :=
  isSpaceChar c ||
  decide (c.toNat = 0x2e) || -- .
  decide (c.toNat = 0x2c) || -- ,
  decide (c.toNat = 0x21) || -- !
  decide (c.toNat = 0x3f) || -- ?
  decide (c.toNat = 0x3a) || -- :
  decide (c.toNat = 0x3b) || -- ;
  decide (c.toNat = 0x22) || -- "
  decide (c.toNat = 0x28) || -- (
  decide (c.toNat = 0x29) || -- )
  decide (c.toNat = 0x2d) -- -

/-- Lowercase Russian letter class `[а-яё]` of the word-token regex
(U+0430–U+044F plus ё, U+0451). -/
def isRuLetter (c : Char) : Bool :=
  (decide (0x430 ≤ c.toNat) && decide (c.toNat ≤ 0x44f)) || decide (c.toNat = 0x451)

/-- Sentence-terminal punctuation class `[.!?]` of the sentence splitter. -/
def isSentTerm (c : Char) : Bool :=
  c == '.' || c == '!' || c == '?'

/-- Python `str.lower` on the ASCII + Cyrillic repertoire
(A-Z, А-Я and Ё map to their lowercase forms; everything else is fixed). -/
def lowerChar (c : Char) : Char :=
  if 0x41 ≤ c.toNat ∧ c.toNat ≤ 0x5a then Char.ofNat (c.toNat + 0x20)
  else if 0x410 ≤ c.toNat ∧ c.toNat ≤ 0x42f then Char.ofNat (c.toNat + 0x20)
  else if c = 'Ё' then 'ё'
  else c

/-- Python `str.strip`: drop leading and trailing whitespace. -/
def pyStrip (l : List Char) : List Char :=
  ((l.dropWhile isSpaceChar).reverse.dropWhile isSpaceChar).reverse

/-! ### Splitting into chunks (shared by `re.split` and `re.findall`) -/

/-- Auxiliary splitter: cut `l` at every character satisfying `p`,
dropping the separators; `acc` holds the current chunk reversed. -/
def chunksAux (p : Char → Bool) : List Char → List Char → List (List Char)
  | [], acc => [acc.reverse]
  | c :: cs, acc =>
      if p c then acc.reverse :: chunksAux p cs []
      else chunksAux p cs (c :: acc)

/-- Split a character list at every character satisfying `p`. -/
def chunks (p : Char → Bool) (l : List Char) : List (List Char) :=
  chunksAux p l []

/-- Count of Russian word tokens: `re.findall(r"\b[а-яё]+\b", txt.lower())`.
A token is a maximal run of word characters (boundaries on both sides) that
consists entirely of `[а-яё]`. -/
def ruWordCount (txt : List Char) : Nat :=
  ((chunks (fun c => !isWordChar c) (txt.map lowerChar)).filter
    (fun w => !w.isEmpty && w.all isRuLetter)).length

/-- Number of sentences: non-empty (after strip) segments of
`re.split(r"[.!?]+", txt)`. -/
def sentCount (txt : List Char) : Nat :=
  ((chunks isSentTerm txt).filter (fun s => s.any (fun c => !isSpaceChar c))).length

/-! ### Garbage-pattern search (`TextValidator._GARBAGE`)

The three compiled patterns, searched case-insensitively
(modelled by lowercasing the text; the patterns are lowercase):
  1. `\b(?:я\s+)?(?:создам|опишу|напишу)\b`
  2. `\bструктура\s+описания\b`
  3. `\bизвините|к\s+сожалению\b`
-/

def wSozdam : List Char := "создам".data
def wOpishu : List Char := "опишу".data
def wNapishu : List Char := "напишу".data
def wStruktura : List Char := "структура".data
def wOpisaniya : List Char := "описания".data
def wIzvinite : List Char := "извините".data
def wSozhaleniyu : List Char := "сожалению".data

/-- Boundary `\b` immediately before a word character, given the previous
character (`none` at the start of the text). -/
def boundaryBefore : Option Char → Bool
  | none => true
  | some c => !isWordChar c

/-- Boundary `\b` immediately after a word character, given the rest of the
text that follows. -/
def boundaryAfter : List Char → Bool
  | [] => true
  | c :: _ => !isWordChar c

/-- One of the verbs `создам|опишу|напишу` starting here, followed by `\b`. -/
def verbMatch (l : List Char) : Bool :=
  (wSozdam.isPrefixOf l && boundaryAfter (l.drop 6)) ||
  (wOpishu.isPrefixOf l && boundaryAfter (l.drop 5)) ||
  (wNapishu.isPrefixOf l && boundaryAfter (l.drop 6))

/-- Pattern 1 anchored at the current position:
`\b(?:я\s+)?(?:создам|опишу|напишу)\b`. -/
def p1At (prev : Option Char) (l : List Char) : Bool :=
  boundaryBefore prev &&
    (verbMatch l ||
      (match l with
       | c :: c2 :: rest =>
           c == 'я' && isSpaceChar c2 && verbMatch ((c2 :: rest).dropWhile isSpaceChar)
       | _ => false))

/-- Pattern 2 anchored at the current position: `\bструктура\s+описания\b`. -/
def p2At (prev : Option Char) (l : List Char) : Bool :=
  boundaryBefore prev && wStruktura.isPrefixOf l &&
    (match l.drop 9 with
     | c :: rest =>
         isSpaceChar c &&
           (wOpisaniya.isPrefixOf ((c :: rest).dropWhile isSpaceChar) &&
             boundaryAfter (((c :: rest).dropWhile isSpaceChar).drop 8))
     | [] => false)

/-- First alternative of pattern 3: `\bизвините` (no trailing boundary). -/
def p3aAt (prev : Option Char) (l : List Char) : Bool :=
  boundaryBefore prev && wIzvinite.isPrefixOf l

/-- Second alternative of pattern 3: `к\s+сожалению\b` (no leading boundary). -/
def p3bAt (_prev : Option Char) (l : List Char) : Bool :=
  match l with
  | c :: c2 :: rest =>
      c == 'к' && isSpaceChar c2 &&
        (wSozhaleniyu.isPrefixOf ((c2 :: rest).dropWhile isSpaceChar) &&
          boundaryAfter (((c2 :: rest).dropWhile isSpaceChar).drop 9))
  | _ => false

/-- Last character of `u`, or `prev` when `u` is empty: the character that
precedes the current position after scanning past `u`. -/
def prevOf (prev : Option Char) : List Char → Option Char
  | [] => prev
  | c :: cs => prevOf (some c) cs

/-- Scan every position of the text, tracking the previous character,
and test the anchored matcher `f` (the semantics of `re.search`). -/
def searchAt (f : Option Char → List Char → Bool) : Option Char → List Char → Bool
  | prev, [] => f prev []
  | prev, c :: rest => f prev (c :: rest) || searchAt f (some c) rest

/-- Does the (already stripped) text match any of the three garbage
patterns, case-insensitively? -/
def hasGarbage (txt : List Char) : Bool :=
  searchAt p1At none (txt.map lowerChar) ||
  searchAt p2At none (txt.map lowerChar) ||
  searchAt p3aAt none (txt.map lowerChar) ||
  searchAt p3bAt none (txt.map lowerChar)

/-! ### The validator (`TextValidator.validate`) -/

/-- Quick statistics returned by the validator; the average sentence length
is the exact rational `word_count / max(sentence_count, 1)`. -/
structure QuickStats where
  word_count : Nat
  sentence_count : Nat
  avg_sent_len : ℚ
deriving DecidableEq, Repr

/-- Embedding of `TextValidator.validate(text, level)`: returns
`(is_valid, msg, quick_stats)`; the per-tier thresholds
`cfg.min_words[level]` and `cfg.max_words[level]` are the two `Nat`
parameters, and the empty stats dict `{}` is `none`. -/
def validate (minW maxW : Nat) (text : String) : Bool × String × Option QuickStats :=
  if (pyStrip text.data).length < 10 then (false, "too_short", none)
  else if hasGarbage (pyStrip text.data) = true then (false, "meta_garbage", none)
  else if ruWordCount (pyStrip text.data) < 8 then (false, "not_enough_russian_words", none)
  else if ¬(minW ≤ ruWordCount (pyStrip text.data) ∧ ruWordCount (pyStrip text.data) ≤ maxW) then
    (false, "len_out_of_bounds",
      some ⟨ruWordCount (pyStrip text.data), sentCount (pyStrip text.data),
        (ruWordCount (pyStrip text.data) : ℚ) / ((max (sentCount (pyStrip text.data)) 1 : Nat) : ℚ)⟩)
  else
    (true, "ok",
      some ⟨ruWordCount (pyStrip text.data), sentCount (pyStrip text.data),
        (ruWordCount (pyStrip text.data) : ℚ) / ((max (sentCount (pyStrip text.data)) 1 : Nat) : ℚ)⟩)

/-! ### Record Producer (`DatasetGenerator._generate_one`) -/

/-- One accepted record, the unit of persistence (the dict built on a
successful validation; the timestamp is an uninterpreted string supplied by the
caller in place of `datetime.utcnow().isoformat()`). -/
structure Record where
  level : Nat
  genre : String
  description : String
  word_count : Nat
  timestamp : String
deriving DecidableEq, Repr

/-- Outcome of one external API call: a transport failure (the `except`
branch) or a successful response carrying the returned text. -/
inductive CallResult where
  | failure
  | success (t : String)
deriving DecidableEq, Repr

/-- Embedding of `_generate_one`: the list holds the outcome the external
call would produce on each successive attempt, so `calls.length` is
`max_retries`.  Returns the result together with the number of API calls
issued and the number of validator calls made.  A transport failure
consumes one attempt and continues; the first successful response is
validated exactly once and terminates the loop — with the record when
accepted, with `none` when rejected. -/
def generateOne (minW maxW level : Nat) (genre now : String) :
    List CallResult → Option Record × Nat × Nat
  | [] => (none, 0, 0)
  | CallResult.failure :: rest =>
      let r := generateOne minW maxW level genre now rest
      (r.1, r.2.1 + 1, r.2.2)
  | CallResult.success t :: _rest =>
      match validate minW maxW (String.mk (pyStrip t.data)) with
      | (true, _, some s) =>
          (some ⟨level, genre, String.mk (pyStrip t.data), s.word_count, now⟩, 1, 1)
      | (true, _, none) => (none, 1, 1) -- unreachable: an accepted text always carries stats
      | (false, _, _) => (none, 1, 1)

/-! ### Durable store and Tier Driver (`generate_level`, `_save_batch`) -/

/-- One row of the tier's CSV file: the header row or a data row. -/
inductive Entry where
  | header
  | data (r : Record)
deriving DecidableEq, Repr

/-- The durable store: `none` when the file does not exist, otherwise the
list of its rows. -/
abbrev Store := Option (List Entry)

/-- Is this entry a data row? -/
def entryIsData : Entry → Bool
  | Entry.header => false
  | Entry.data _ => true

/-- Embedding of `_save_batch`: append the batch to the CSV, writing the
header row only when the file does not yet exist
(`df.to_csv(path, mode="a", header=not path.exists())`). -/
def saveBatch (batch : List Record) : Store → Store
  | none => some (Entry.header :: batch.map Entry.data)
  | some es => some (es ++ batch.map Entry.data)

/-- Resumed count: `sum(1 for _ in open(file_csv)) - 1 if file_csv.exists()
else 0` — the file's line count minus one when it exists, else `0`. -/
def doneInit : Store → Int
  | none => 0
  | some es => (es.length : Int) - 1

/-- State of the `generate_level` loop: the logical persisted count, the
in-memory batch, the durable store, and the iteration counter. -/
structure DriverState where
  done : Int
  batch : List Record
  store : Store
  i : Nat
deriving DecidableEq, Repr

/-- Initial loop state over a given store. -/
def initState (s : Store) : DriverState :=
  ⟨doneInit s, [], s, 0⟩

/-- One iteration of the `generate_level` body: call the producer
(`produce st.i` is what `_generate_one` returns on this iteration); on an
accepted record append it to the batch and increment `done`; then flush the
batch when it has reached `batch_size`. -/
def driverStep (batchSize : Nat) (produce : Nat → Option Record)
    (st : DriverState) : DriverState :=
  let st1 := match produce st.i with
    | some r => { st with batch := st.batch ++ [r], done := st.done + 1 }
    | none => st
  let st2 := if batchSize ≤ st1.batch.length then
      { st1 with store := saveBatch st1.batch st1.store, batch := [] }
    else st1
  { st2 with i := st2.i + 1 }

/-- The `while done < target and not self.exit.stop` loop, with explicit
fuel (`stop i` is the value of the cancellation flag observed at the `i`-th
loop-condition check); `none` when the fuel runs out before the loop would
exit. -/
def runLoop (target : Int) (batchSize : Nat) (produce : Nat → Option Record)
    (stop : Nat → Bool) : Nat → DriverState → Option DriverState
  | 0, st =>
      if st.done < target ∧ stop st.i = false then none else some st
  | fuel + 1, st =>
      if st.done < target ∧ stop st.i = false then
        runLoop target batchSize produce stop fuel (driverStep batchSize produce st)
      else some st

/-- The trailing `if batch: self._save_batch(batch, file_csv)`. -/
def finalFlush (st : DriverState) : Store :=
  if st.batch.isEmpty then st.store else saveBatch st.batch st.store

/-- Embedding of `generate_level`: recover the persisted count from the
store, run the accumulation loop, and flush any remaining batch; yields the
final durable store (or `none` if the fuel was insufficient). -/
def generateLevel (target : Int) (batchSize : Nat) (produce : Nat → Option Record)
    (stop : Nat → Bool) (fuel : Nat) (s0 : Store) : Option Store :=
  (runLoop target batchSize produce stop fuel (initState s0)).map finalFlush

/-- A concrete accepted record used to instantiate the driver theorems. -/
def sampleRecord : Record :=
  ⟨1, "приключения", "Он шёл по улице и думал о вечере.", 80, "2024-01-01T00:00:00"⟩

/-- Number of data rows held by a store (`none` holds zero). -/
def dataLen : Store → Nat
  | none => 0
  | some es => es.countP entryIsData

/-- Data rows on disk plus records in the in-memory batch, as an integer
(the loop's `done` counter tracks `doneInit` plus exactly this growth). -/
def stMeasure (st : DriverState) : Int :=
  (dataLen st.store : Int) + st.batch.length

/-! ### Helper lemmas on splitting and searching -/

lemma mem_chunksAux_sub {p : Char → Bool} :
    ∀ (l acc ch : List Char), ch ∈ chunksAux p l acc → ∀ x ∈ ch, x ∈ l ∨ x ∈ acc := by
  intro l
  induction l with
  | nil =>
      intro acc ch hch x hx
      simp only [chunksAux, List.mem_singleton] at hch
      subst hch
      right; simpa using hx
  | cons c cs ih =>
      intro acc ch hch x hx
      cases hc : p c with
      | true =>
          simp only [chunksAux, hc, if_pos, List.mem_cons] at hch
          rcases hch with rfl | hch
          · right; simpa using hx
          · rcases ih [] ch hch x hx with h | h
            · exact Or.inl (List.mem_cons_of_mem _ h)
            · simp at h
      | false =>
          simp only [chunksAux, hc, Bool.false_eq_true, if_neg, not_false_iff] at hch
          rcases ih (c :: acc) ch hch x hx with h | h
          · exact Or.inl (List.mem_cons_of_mem _ h)
          · rcases List.mem_cons.mp h with rfl | h
            · exact Or.inl (List.mem_cons_self _ _)
            · exact Or.inr h

lemma mem_chunksAux_of_mem_acc {p : Char → Bool} :
    ∀ (l acc : List Char) (x : Char), x ∈ acc → ∃ ch ∈ chunksAux p l acc, x ∈ ch := by
  intro l
  induction l with
  | nil =>
      intro acc x hx
      exact ⟨acc.reverse, by simp [chunksAux], by simpa using hx⟩
  | cons c cs ih =>
      intro acc x hx
      cases hc : p c with
      | true =>
          refine ⟨acc.reverse, ?_, by simpa using hx⟩
          simp [chunksAux, hc]
      | false =>
          obtain ⟨ch, hch, hxch⟩ := ih (c :: acc) x (List.mem_cons_of_mem _ hx)
          refine ⟨ch, ?_, hxch⟩
          simpa [chunksAux, hc] using hch

lemma mem_chunksAux_of_mem {p : Char → Bool} :
    ∀ (l acc : List Char) (x : Char), x ∈ l → p x = false →
      ∃ ch ∈ chunksAux p l acc, x ∈ ch := by
  intro l
  induction l with
  | nil => intro acc x hx; simp at hx
  | cons c cs ih =>
      intro acc x hx hpx
      rcases List.mem_cons.mp hx with rfl | hx
      · obtain ⟨ch, hch, hxch⟩ := mem_chunksAux_of_mem_acc cs (x :: acc) x (List.mem_cons_self _ _)
        refine ⟨ch, ?_, hxch⟩
        simpa [chunksAux, hpx] using hch
      · cases hc : p c with
        | true =>
            obtain ⟨ch, hch, hxch⟩ := ih [] x hx hpx
            refine ⟨ch, ?_, hxch⟩
            simp [chunksAux, hc]
            exact Or.inr hch
        | false =>
            obtain ⟨ch, hch, hxch⟩ := ih (c :: acc) x hx hpx
            refine ⟨ch, ?_, hxch⟩
            simpa [chunksAux, hc] using hch

lemma safeBoundary_not_word {c : Char} (h : isSafeBoundary c = true) :
    isWordChar c = false := by
  cases hw : isWordChar c with
  | false => rfl
  | true =>
      exfalso
      simp only [isSafeBoundary, isSpaceChar, isWordChar, Bool.or_eq_true, Bool.and_eq_true,
        decide_eq_true_eq] at h hw
      omega

lemma ru_lower_classes (c : Char) (h : isRuLetter (lowerChar c) = true) :
    isSentTerm c = false ∧ isSpaceChar c = false := by
  constructor
  · cases ht : isSentTerm c with
    | false => rfl
    | true =>
        exfalso
        simp only [isSentTerm, Bool.or_eq_true, beq_iff_eq] at ht
        rcases ht with (rfl | rfl) | rfl <;> exact absurd h (by decide)
  · cases hs : isSpaceChar c with
    | false => rfl
    | true =>
        exfalso
        simp only [isSpaceChar, Bool.or_eq_true, Bool.and_eq_true, decide_eq_true_eq] at hs
        have e1 : ¬(0x41 ≤ c.toNat ∧ c.toNat ≤ 0x5a) := by omega
        have e2 : ¬(0x410 ≤ c.toNat ∧ c.toNat ≤ 0x42f) := by omega
        have hne : c.toNat ≠ 0x401 := by omega
        have e3 : c ≠ 'Ё' := fun hh => hne (by subst hh; decide)
        unfold lowerChar at h
        rw [if_neg e1, if_neg e2, if_neg e3] at h
        simp only [isRuLetter, Bool.or_eq_true, Bool.and_eq_true, decide_eq_true_eq] at h
        omega

lemma sentCount_pos {txt : List Char} (h : 1 ≤ ruWordCount txt) : 1 ≤ sentCount txt := by
  unfold ruWordCount at h
  obtain ⟨w, hw⟩ := List.exists_mem_of_length_pos h
  rw [List.mem_filter] at hw
  obtain ⟨hw1, hw2⟩ := hw
  rw [Bool.and_eq_true, Bool.not_eq_true', List.isEmpty_eq_false_iff_exists_mem] at hw2
  obtain ⟨⟨c, hcw⟩, hall⟩ := hw2
  have hcl : c ∈ txt.map lowerChar := by
    rcases mem_chunksAux_sub _ _ _ hw1 c hcw with h' | h'
    · exact h'
    · simp at h'
  obtain ⟨c', hc't, hlow⟩ := List.mem_map.mp hcl
  have hru : isRuLetter (lowerChar c') = true := by
    rw [hlow]; exact List.all_eq_true.mp hall c hcw
  obtain ⟨hterm, hspace⟩ := ru_lower_classes c' hru
  obtain ⟨ch, hch, hc'ch⟩ := mem_chunksAux_of_mem txt [] c' hc't hterm
  have : ch ∈ (chunks isSentTerm txt).filter (fun s => s.any (fun c => !isSpaceChar c)) := by
    rw [List.mem_filter]
    exact ⟨hch, List.any_eq_true.mpr ⟨c', hc'ch, by simp [hspace]⟩⟩
  unfold sentCount
  exact List.length_pos.mpr (List.ne_nil_of_mem this)

lemma isPrefixOf_append_self (l t : List Char) : l.isPrefixOf (l ++ t) = true := by
  induction l with
  | nil => simp [List.isPrefixOf]
  | cons c cs ih => simp [List.isPrefixOf, ih]

lemma prevOf_append (prev : Option Char) :
    ∀ u v : List Char, prevOf prev (u ++ v) = prevOf (prevOf prev u) v := by
  intro u
  induction u generalizing prev with
  | nil => intro v; rfl
  | cons c cs ih => intro v; exact ih (some c) v

lemma searchAt_append {f : Option Char → List Char → Bool} :
    ∀ (u : List Char) (prev : Option Char) (v : List Char),
      f (prevOf prev u) v = true → searchAt f prev (u ++ v) = true := by
  intro u
  induction u with
  | nil =>
      intro prev v h
      cases v with
      | nil => simpa [searchAt, prevOf] using h
      | cons c rest =>
          rw [List.nil_append, searchAt, Bool.or_eq_true]
          exact Or.inl h
  | cons c cs ih =>
      intro prev v h
      rw [List.cons_append, searchAt, Bool.or_eq_true]
      exact Or.inr (ih (some c) v h)

/-! ### Branch characterizations of `validate` -/

lemma validate_eq_too_short {minW maxW : Nat} {text : String}
    (h : (pyStrip text.data).length < 10) :
    validate minW maxW text = (false, "too_short", none) := by
  simp [validate, h]

lemma validate_eq_garbage {minW maxW : Nat} {text : String}
    (h1 : ¬ (pyStrip text.data).length < 10)
    (h2 : hasGarbage (pyStrip text.data) = true) :
    validate minW maxW text = (false, "meta_garbage", none) := by
  simp [validate, h1, h2]

lemma validate_eq_few {minW maxW : Nat} {text : String}
    (h1 : ¬ (pyStrip text.data).length < 10)
    (h2 : hasGarbage (pyStrip text.data) = false)
    (h3 : ruWordCount (pyStrip text.data) < 8) :
    validate minW maxW text = (false, "not_enough_russian_words", none) := by
  simp [validate, h1, h2, h3]

lemma validate_eq_oob {minW maxW : Nat} {text : String}
    (h1 : ¬ (pyStrip text.data).length < 10)
    (h2 : hasGarbage (pyStrip text.data) = false)
    (h3 : ¬ ruWordCount (pyStrip text.data) < 8)
    (h4 : ¬ (minW ≤ ruWordCount (pyStrip text.data) ∧ ruWordCount (pyStrip text.data) ≤ maxW)) :
    validate minW maxW text = (false, "len_out_of_bounds",
      some ⟨ruWordCount (pyStrip text.data), sentCount (pyStrip text.data),
        (ruWordCount (pyStrip text.data) : ℚ) / ((max (sentCount (pyStrip text.data)) 1 : Nat) : ℚ)⟩) := by
  simp [validate, h1, h2, h3, h4]

lemma validate_eq_ok {minW maxW : Nat} {text : String}
    (h1 : ¬ (pyStrip text.data).length < 10)
    (h2 : hasGarbage (pyStrip text.data) = false)
    (h3 : ¬ ruWordCount (pyStrip text.data) < 8)
    (h4 : minW ≤ ruWordCount (pyStrip text.data) ∧ ruWordCount (pyStrip text.data) ≤ maxW) :
    validate minW maxW text = (true, "ok",
      some ⟨ruWordCount (pyStrip text.data), sentCount (pyStrip text.data),
        (ruWordCount (pyStrip text.data) : ℚ) / ((max (sentCount (pyStrip text.data)) 1 : Nat) : ℚ)⟩) := by
  simp [validate, h1, h2, h3, h4]

/-! ### Claim theorems about the validator -/

/-- C9: whenever `validate` returns populated QuickStats, the sentence list
is non-empty, so `sentence_count ≥ 1` and the average-sentence-length
division never divides by zero (the `max(…, 1)` guard is inactive, so the
average really is `word_count / sentence_count`); `validate` is total by
construction. -/
theorem validate_stats_sentence_pos (minW maxW : Nat) (text : String) (s : QuickStats)
    (h : (validate minW maxW text).2.2 = some s) :
    1 ≤ s.sentence_count ∧
      s.avg_sent_len = (s.word_count : ℚ) / (s.sentence_count : ℚ) := by
  by_cases h1 : (pyStrip text.data).length < 10
  · rw [validate_eq_too_short h1] at h; simp at h
  cases hg : hasGarbage (pyStrip text.data) with
  | true => rw [validate_eq_garbage h1 hg] at h; simp at h
  | false =>
    by_cases h3 : ruWordCount (pyStrip text.data) < 8
    · rw [validate_eq_few h1 hg h3] at h; simp at h
    have hsc : 1 ≤ sentCount (pyStrip text.data) := sentCount_pos (by omega)
    have hmax : max (sentCount (pyStrip text.data)) 1 = sentCount (pyStrip text.data) :=
      Nat.max_eq_left hsc
    by_cases h4 : minW ≤ ruWordCount (pyStrip text.data) ∧
        ruWordCount (pyStrip text.data) ≤ maxW
    · rw [validate_eq_ok h1 hg h3 h4] at h
      simp only [Option.some.injEq] at h
      subst h
      exact ⟨hsc, by rw [hmax]⟩
    · rw [validate_eq_oob h1 hg h3 h4] at h
      simp only [Option.some.injEq] at h
      subst h
      exact ⟨hsc, by rw [hmax]⟩

/-- C9 witness: a concrete eight-word one-sentence text yields populated
stats with `sentence_count = 1` and exact average `8 / 1`. -/
theorem validate_stats_sentence_pos_witness :
    1 ≤ (QuickStats.mk 8 1 (((8 : Nat) : ℚ) / ((1 : Nat) : ℚ))).sentence_count ∧
      (QuickStats.mk 8 1 (((8 : Nat) : ℚ) / ((1 : Nat) : ℚ))).avg_sent_len =
        ((QuickStats.mk 8 1 (((8 : Nat) : ℚ) / ((1 : Nat) : ℚ))).word_count : ℚ) /
          ((QuickStats.mk 8 1 (((8 : Nat) : ℚ) / ((1 : Nat) : ℚ))).sentence_count : ℚ) :=
  validate_stats_sentence_pos 1 100 "раз два три четыре пять шесть семь восемь."
    ⟨8, 1, ((8 : Nat) : ℚ) / ((1 : Nat) : ℚ)⟩ rfl

/-- C2 counterexample: the claim fails as stated.  The text `"я создам"`
contains the substring yet is rejected as `too_short` (its stripped length
is 8 < 10, and that check runs first), and the 19-character text
`"ааа я создамира ббб"` contains the substring (inside the longer word
`создамира`, exhibited by the explicit split) yet is rejected as
`not_enough_russian_words`, because the pattern requires a word boundary
after `создам`. -/
theorem validate_ya_sozdam_counterexample :
    ("я создам".data = ([] : List Char) ++ "я создам".data ++ []) ∧
    (validate 50 120 "я создам").2.1 = "too_short" ∧
    (validate 50 120 "я создам").2.1 ≠ "meta_garbage" ∧
    "ааа я создамира ббб".data = "ааа ".data ++ "я создам".data ++ "ира ббб".data ∧
    (validate 50 120 "ааа я создамира ббб").2.1 = "not_enough_russian_words" ∧
    (validate 50 120 "ааа я создамира ббб").2.1 ≠ "meta_garbage" := by
  decide

/-- C2 amended: every text whose stripped form has at least 10 characters
and, lowercased, contains `"я создам"` at an occurrence where `создам` is
followed by the end of the text or by a whitespace or common punctuation
character (a definite word boundary, in Python's Unicode `\b` semantics as
well as in this model) is rejected with reason `meta_garbage`, for every
tier's thresholds and regardless of word count. -/
theorem validate_meta_garbage_amended (minW maxW : Nat) (text : String)
    (pre post : List Char)
    (hlen : 10 ≤ (pyStrip text.data).length)
    (hsplit : (pyStrip text.data).map lowerChar = pre ++ "я создам".data ++ post)
    (hsafe : post = [] ∨ ∃ c rest, post = c :: rest ∧ isSafeBoundary c = true) :
    validate minW maxW text = (false, "meta_garbage", none) := by
  have hbound : boundaryAfter post = true := by
    rcases hsafe with rfl | ⟨c, rest, rfl, hc⟩
    · rfl
    · simp [boundaryAfter, safeBoundary_not_word hc]
  have hgarb : hasGarbage (pyStrip text.data) = true := by
    unfold hasGarbage
    rw [hsplit]
    have hpat : "я создам".data = ['я', ' '] ++ wSozdam := by decide
    rw [hpat, show pre ++ (['я', ' '] ++ wSozdam) ++ post =
      (pre ++ ['я', ' ']) ++ (wSozdam ++ post) by simp [List.append_assoc]]
    have hp1 : p1At (prevOf none (pre ++ ['я', ' '])) (wSozdam ++ post) = true := by
      rw [prevOf_append, show prevOf (prevOf none pre) ['я', ' '] = some ' ' from rfl]
      have hverb : verbMatch (wSozdam ++ post) = true := by
        have hdrop : (wSozdam ++ post).drop 6 = post := by
          rw [show (6 : Nat) = wSozdam.length from rfl, List.drop_left]
        unfold verbMatch
        rw [hdrop]
        simp [isPrefixOf_append_self, hbound]
      have hbb : boundaryBefore (some ' ') = true := by decide
      simp [p1At, hverb, hbb]
    rw [Bool.or_eq_true, Bool.or_eq_true, Bool.or_eq_true]
    exact Or.inl (Or.inl (Or.inl (searchAt_append _ none _ hp1)))
  exact validate_eq_garbage (by omega) hgarb

/-- C2 amended witness: a concrete long-enough text with a whole-word
occurrence of `я создам` is rejected as `meta_garbage`. -/
theorem validate_meta_garbage_amended_witness :
    validate 50 120 "Я создам описание героя" = (false, "meta_garbage", none) :=
  validate_meta_garbage_amended 50 120 "Я создам описание героя" [] " описание героя".data
    (by decide) (by decide)
    (Or.inr ⟨' ', "описание героя".data, by decide, by decide⟩)

/-- C5 counterexample: the claim fails as stated.  A concrete text that
passes the `too_short` and `meta_garbage` checks but has fewer than 8
Russian word tokens is rejected with the code's literal reason string
`not_enough_russian_words`, which is not `not_enough_words`. -/
theorem validate_reason_code_counterexample :
    validate 50 120 "hello world one two" = (false, "not_enough_russian_words", none) ∧
    "not_enough_russian_words" ≠ "not_enough_words" := by
  decide

/-- C5 amended: for every text that passes the `too_short` and
`meta_garbage` checks but has fewer than 8 Russian-script word tokens,
`validate` returns `accepted = false` with reason code
`not_enough_russian_words` (the code's actual spelling of the third of the
four reason codes) and empty stats, for every tier's thresholds. -/
theorem validate_not_enough_russian_words_amended (minW maxW : Nat) (text : String)
    (h1 : ¬ (pyStrip text.data).length < 10)
    (h2 : hasGarbage (pyStrip text.data) = false)
    (h3 : ruWordCount (pyStrip text.data) < 8) :
    validate minW maxW text = (false, "not_enough_russian_words", none) :=
  validate_eq_few h1 h2 h3

/-- C5 amended witness: the concrete text of the counterexample satisfies
the hypotheses and is rejected with reason `not_enough_russian_words`. -/
theorem validate_not_enough_russian_words_amended_witness :
    validate 50 120 "hello world one two" = (false, "not_enough_russian_words", none) :=
  validate_not_enough_russian_words_amended 50 120 "hello world one two"
    (by decide) (by decide) (by decide)

/-- C6: a `len_out_of_bounds` rejection always carries populated
QuickStats (word count, sentence count, average sentence length); the
three earlier rejections always return empty stats; the four checks run in
the fixed order length, garbage, word count, bounds with the first match
winning; and an accepted outcome has `minW ≤ word_count ≤ maxW`.  (The
third reason is spelled `not_enough_russian_words` in the code.) -/
theorem validate_order_and_stats (minW maxW : Nat) (text : String) :
    ((validate minW maxW text).2.1 = "len_out_of_bounds" →
      (validate minW maxW text).1 = false ∧
      (validate minW maxW text).2.2 =
        some ⟨ruWordCount (pyStrip text.data), sentCount (pyStrip text.data),
          (ruWordCount (pyStrip text.data) : ℚ) /
            ((max (sentCount (pyStrip text.data)) 1 : Nat) : ℚ)⟩) ∧
    (((validate minW maxW text).2.1 = "too_short" ∨
      (validate minW maxW text).2.1 = "meta_garbage" ∨
      (validate minW maxW text).2.1 = "not_enough_russian_words") →
      (validate minW maxW text).2.2 = none) ∧
    ((pyStrip text.data).length < 10 →
      validate minW maxW text = (false, "too_short", none)) ∧
    (¬ (pyStrip text.data).length < 10 → hasGarbage (pyStrip text.data) = true →
      validate minW maxW text = (false, "meta_garbage", none)) ∧
    (¬ (pyStrip text.data).length < 10 → hasGarbage (pyStrip text.data) = false →
      ruWordCount (pyStrip text.data) < 8 →
      validate minW maxW text = (false, "not_enough_russian_words", none)) ∧
    (¬ (pyStrip text.data).length < 10 → hasGarbage (pyStrip text.data) = false →
      ¬ ruWordCount (pyStrip text.data) < 8 →
      ¬ (minW ≤ ruWordCount (pyStrip text.data) ∧ ruWordCount (pyStrip text.data) ≤ maxW) →
      (validate minW maxW text).2.1 = "len_out_of_bounds") ∧
    ((validate minW maxW text).1 = true →
      minW ≤ ruWordCount (pyStrip text.data) ∧ ruWordCount (pyStrip text.data) ≤ maxW) := by
  by_cases h1 : (pyStrip text.data).length < 10
  · rw [validate_eq_too_short h1]
    exact ⟨fun h => absurd (show ("too_short" : String) = "len_out_of_bounds" from h) (by decide),
      fun _ => rfl,
      fun _ => rfl,
      fun h1' _ => absurd h1 h1',
      fun h1' _ _ => absurd h1 h1',
      fun h1' _ _ _ => absurd h1 h1',
      fun h => absurd (show (false : Bool) = true from h) (by decide)⟩
  cases hg : hasGarbage (pyStrip text.data) with
  | true =>
      rw [validate_eq_garbage h1 hg]
      exact ⟨fun h =>
          absurd (show ("meta_garbage" : String) = "len_out_of_bounds" from h) (by decide),
        fun _ => rfl,
        fun h => absurd h h1,
        fun _ _ => rfl,
        fun _ hg' _ => absurd hg' (by decide),
        fun _ hg' _ _ => absurd hg' (by decide),
        fun h => absurd (show (false : Bool) = true from h) (by decide)⟩
  | false =>
      by_cases h3 : ruWordCount (pyStrip text.data) < 8
      · rw [validate_eq_few h1 hg h3]
        exact ⟨fun h =>
            absurd (show ("not_enough_russian_words" : String) = "len_out_of_bounds" from h)
              (by decide),
          fun _ => rfl,
          fun h => absurd h h1,
          fun _ hg' => absurd hg' (by decide),
          fun _ _ _ => rfl,
          fun _ _ h3' _ => absurd h3 h3',
          fun h => absurd (show (false : Bool) = true from h) (by decide)⟩
      by_cases h4 : minW ≤ ruWordCount (pyStrip text.data) ∧
          ruWordCount (pyStrip text.data) ≤ maxW
      · rw [validate_eq_ok h1 hg h3 h4]
        exact ⟨fun h => absurd (show ("ok" : String) = "len_out_of_bounds" from h) (by decide),
          fun h => h.elim
            (fun h => absurd (show ("ok" : String) = "too_short" from h) (by decide))
            (fun h => h.elim
              (fun h => absurd (show ("ok" : String) = "meta_garbage" from h) (by decide))
              (fun h =>
                absurd (show ("ok" : String) = "not_enough_russian_words" from h) (by decide))),
          fun h => absurd h h1,
          fun _ hg' => absurd hg' (by decide),
          fun _ _ h3' => absurd h3' h3,
          fun _ _ _ h4' => absurd h4 h4',
          fun _ => h4⟩
      · rw [validate_eq_oob h1 hg h3 h4]
        exact ⟨fun _ => ⟨rfl, rfl⟩,
          fun h => h.elim
            (fun h =>
              absurd (show ("len_out_of_bounds" : String) = "too_short" from h) (by decide))
            (fun h => h.elim
              (fun h =>
                absurd (show ("len_out_of_bounds" : String) = "meta_garbage" from h) (by decide))
              (fun h =>
                absurd (show ("len_out_of_bounds" : String) = "not_enough_russian_words" from h)
                  (by decide))),
          fun h => absurd h h1,
          fun _ hg' => absurd hg' (by decide),
          fun _ _ h3' => absurd h3' h3,
          fun _ _ _ _ => rfl,
          fun h => absurd (show (false : Bool) = true from h) (by decide)⟩

/-- C6 witness: the ordering-and-stats conjunction instantiated at the
concrete tier-1 thresholds and a concrete 12-word in-bounds text. -/
theorem validate_order_and_stats_witness :
    ((validate 1 100 "Он шёл по улице и думал о том, как хорош вечер.").2.1 = "len_out_of_bounds" →
      (validate 1 100 "Он шёл по улице и думал о том, как хорош вечер.").1 = false ∧
      (validate 1 100 "Он шёл по улице и думал о том, как хорош вечер.").2.2 =
        some ⟨ruWordCount (pyStrip "Он шёл по улице и думал о том, как хорош вечер.".data),
          sentCount (pyStrip "Он шёл по улице и думал о том, как хорош вечер.".data),
          (ruWordCount (pyStrip "Он шёл по улице и думал о том, как хорош вечер.".data) : ℚ) /
            ((max (sentCount (pyStrip "Он шёл по улице и думал о том, как хорош вечер.".data)) 1 :
              Nat) : ℚ)⟩) ∧
    (((validate 1 100 "Он шёл по улице и думал о том, как хорош вечер.").2.1 = "too_short" ∨
      (validate 1 100 "Он шёл по улице и думал о том, как хорош вечер.").2.1 = "meta_garbage" ∨
      (validate 1 100 "Он шёл по улице и думал о том, как хорош вечер.").2.1 =
        "not_enough_russian_words") →
      (validate 1 100 "Он шёл по улице и думал о том, как хорош вечер.").2.2 = none) ∧
    ((pyStrip "Он шёл по улице и думал о том, как хорош вечер.".data).length < 10 →
      validate 1 100 "Он шёл по улице и думал о том, как хорош вечер." =
        (false, "too_short", none)) ∧
    (¬ (pyStrip "Он шёл по улице и думал о том, как хорош вечер.".data).length < 10 →
      hasGarbage (pyStrip "Он шёл по улице и думал о том, как хорош вечер.".data) = true →
      validate 1 100 "Он шёл по улице и думал о том, как хорош вечер." =
        (false, "meta_garbage", none)) ∧
    (¬ (pyStrip "Он шёл по улице и думал о том, как хорош вечер.".data).length < 10 →
      hasGarbage (pyStrip "Он шёл по улице и думал о том, как хорош вечер.".data) = false →
      ruWordCount (pyStrip "Он шёл по улице и думал о том, как хорош вечер.".data) < 8 →
      validate 1 100 "Он шёл по улице и думал о том, как хорош вечер." =
        (false, "not_enough_russian_words", none)) ∧
    (¬ (pyStrip "Он шёл по улице и думал о том, как хорош вечер.".data).length < 10 →
      hasGarbage (pyStrip "Он шёл по улице и думал о том, как хорош вечер.".data) = false →
      ¬ ruWordCount (pyStrip "Он шёл по улице и думал о том, как хорош вечер.".data) < 8 →
      ¬ (1 ≤ ruWordCount (pyStrip "Он шёл по улице и думал о том, как хорош вечер.".data) ∧
        ruWordCount (pyStrip "Он шёл по улице и думал о том, как хорош вечер.".data) ≤ 100) →
      (validate 1 100 "Он шёл по улице и думал о том, как хорош вечер.").2.1 =
        "len_out_of_bounds") ∧
    ((validate 1 100 "Он шёл по улице и думал о том, как хорош вечер.").1 = true →
      1 ≤ ruWordCount (pyStrip "Он шёл по улице и думал о том, как хорош вечер.".data) ∧
      ruWordCount (pyStrip "Он шёл по улице и думал о том, как хорош вечер.".data) ≤ 100) :=
  validate_order_and_stats 1 100 "Он шёл по улице и думал о том, как хорош вечер."

/-! ### Claim theorems about the Record Producer -/

/-- C1: the first successful external API response terminates the attempt
loop of `_generate_one`: after any run of transport failures, a successful
response whose text the validator rejects makes the function return `none`
immediately, having issued exactly one API call past the failures (none of
the remaining attempts is used) and exactly one validator call. -/
theorem generateOne_first_success (minW maxW level : Nat) (genre now : String)
    (pre rest : List CallResult) (t : String)
    (hpre : ∀ c ∈ pre, c = CallResult.failure)
    (hrej : (validate minW maxW (String.mk (pyStrip t.data))).1 = false) :
    generateOne minW maxW level genre now (pre ++ CallResult.success t :: rest) =
      (none, pre.length + 1, 1) := by
  induction pre with
  | nil =>
      rcases hv : validate minW maxW (String.mk (pyStrip t.data)) with ⟨ok, msg, stats⟩
      rw [hv] at hrej
      simp only at hrej
      subst hrej
      rw [List.nil_append]
      show (match validate minW maxW (String.mk (pyStrip t.data)) with
        | (true, _, some s) =>
            (some ⟨level, genre, String.mk (pyStrip t.data), s.word_count, now⟩, 1, 1)
        | (true, _, none) => (none, 1, 1)
        | (false, _, _) => ((none : Option Record), 1, 1)) = (none, 0 + 1, 1)
      rw [hv]
  | cons c cs ih =>
      have hc : c = CallResult.failure := hpre c (List.mem_cons_self _ _)
      subst hc
      have ih' := ih fun c hc => hpre c (List.mem_cons_of_mem _ hc)
      show ((generateOne minW maxW level genre now (cs ++ CallResult.success t :: rest)).1,
        (generateOne minW maxW level genre now (cs ++ CallResult.success t :: rest)).2.1 + 1,
        (generateOne minW maxW level genre now (cs ++ CallResult.success t :: rest)).2.2) =
        (none, (cs.length + 1) + 1, 1)
      rw [ih']

/-- C1 witness: with `max_retries = 3`, two transport failures followed by
a successful garbage-flagged response yield `none` after exactly 3 API
calls and one validator call. -/
theorem generateOne_first_success_witness :
    generateOne 50 120 1 "fantasy" "2024-01-01T00:00:00"
      [CallResult.failure, CallResult.failure,
        CallResult.success "Извините, я не могу это сделать"] = (none, 3, 1) :=
  generateOne_first_success 50 120 1 "fantasy" "2024-01-01T00:00:00"
    [CallResult.failure, CallResult.failure] [] "Извините, я не могу это сделать"
    (by decide) (by decide)

/-- C8: `_generate_one` issues at most `max_retries` API calls and at most
one validator call (so the attempt loop always terminates), and when every
attempt fails with a transport error it returns `none` rather than
raising. -/
theorem generateOne_bounded (minW maxW level : Nat) (genre now : String)
    (calls : List CallResult) :
    (generateOne minW maxW level genre now calls).2.1 ≤ calls.length ∧
    (generateOne minW maxW level genre now calls).2.2 ≤ 1 ∧
    ((∀ c ∈ calls, c = CallResult.failure) →
      (generateOne minW maxW level genre now calls).1 = none) := by
  induction calls with
  | nil => refine ⟨?_, ?_, ?_⟩ <;> simp [generateOne]
  | cons c cs ih =>
      obtain ⟨ih1, ih2, ih3⟩ := ih
      cases c with
      | failure =>
          refine ⟨?_, ?_, ?_⟩
          · simpa [generateOne] using Nat.add_le_add_right ih1 1
          · simpa [generateOne] using ih2
          · intro h
            have := ih3 fun c hc => h c (List.mem_cons_of_mem _ hc)
            simpa [generateOne] using this
      | success t =>
          refine ⟨?_, ?_, ?_⟩
          · rcases hv : validate minW maxW (String.mk (pyStrip t.data)) with ⟨ok, msg, stats⟩
            cases ok with
            | true => cases stats <;> simp [generateOne, hv]
            | false => simp [generateOne, hv]
          · rcases hv : validate minW maxW (String.mk (pyStrip t.data)) with ⟨ok, msg, stats⟩
            cases ok with
            | true => cases stats <;> simp [generateOne, hv]
            | false => simp [generateOne, hv]
          · intro h
            exact absurd (h (CallResult.success t) (List.mem_cons_self _ _)) (by simp)

/-- C8 witness: the bounds instantiated at a concrete two-failure run. -/
theorem generateOne_bounded_witness :
    (generateOne 50 120 1 "g" "ts" [CallResult.failure, CallResult.failure]).2.1 ≤
      ([CallResult.failure, CallResult.failure] : List CallResult).length ∧
    (generateOne 50 120 1 "g" "ts" [CallResult.failure, CallResult.failure]).2.2 ≤ 1 ∧
    ((∀ c ∈ ([CallResult.failure, CallResult.failure] : List CallResult),
        c = CallResult.failure) →
      (generateOne 50 120 1 "g" "ts" [CallResult.failure, CallResult.failure]).1 = none) :=
  generateOne_bounded 50 120 1 "g" "ts" [CallResult.failure, CallResult.failure]

/-! ### Helper lemmas on the Tier Driver -/

lemma mem_map_data (b : List Record) : ∀ e ∈ b.map Entry.data, entryIsData e = true := by
  intro e he
  obtain ⟨r, _, rfl⟩ := List.mem_map.mp he
  rfl

lemma countP_map_data (l : List Record) :
    (l.map Entry.data).countP entryIsData = l.length := by
  induction l with
  | nil => rfl
  | cons r rs ih => simp [List.countP_cons, entryIsData, ih]

lemma dataLen_saveBatch (b : List Record) (s : Store) :
    dataLen (saveBatch b s) = dataLen s + b.length := by
  cases s with
  | none => simp [saveBatch, dataLen, List.countP_cons, entryIsData, countP_map_data]
  | some es => simp [saveBatch, dataLen, List.countP_append, countP_map_data, entryIsData]

lemma driverStep_invariant (bs : Nat) (produce : Nat → Option Record) (st : DriverState) :
    (driverStep bs produce st).done - stMeasure (driverStep bs produce st) =
      st.done - stMeasure st := by
  unfold driverStep
  cases hp : produce st.i with
  | none =>
      dsimp only
      split
      · simp [stMeasure, dataLen_saveBatch]
      · rfl
  | some r =>
      dsimp only
      split
      · simp [stMeasure, dataLen_saveBatch]
        omega
      · simp [stMeasure]
        omega

lemma driverStep_done_of_some (bs : Nat) (produce : Nat → Option Record)
    (st : DriverState) (r : Record) (h : produce st.i = some r) :
    (driverStep bs produce st).done = st.done + 1 := by
  unfold driverStep
  rw [h]
  dsimp only
  split <;> rfl

lemma driverStep_store_append (bs : Nat) (produce : Nat → Option Record)
    (st : DriverState) (es : List Entry) (h : st.store = some es) :
    ∃ ds, (driverStep bs produce st).store = some (es ++ ds) ∧
      ∀ e ∈ ds, entryIsData e = true := by
  unfold driverStep
  cases hp : produce st.i with
  | none =>
      dsimp only
      split
      · exact ⟨st.batch.map Entry.data, by rw [h]; rfl, mem_map_data _⟩
      · exact ⟨[], by rw [h, List.append_nil], by simp⟩
  | some r =>
      dsimp only
      split
      · exact ⟨(st.batch ++ [r]).map Entry.data, by rw [h]; rfl, mem_map_data _⟩
      · exact ⟨[], by rw [h, List.append_nil], by simp⟩

lemma runLoop_invariant (target : Int) (bs : Nat) (produce : Nat → Option Record)
    (stop : Nat → Bool) :
    ∀ (fuel : Nat) (st st' : DriverState),
      runLoop target bs produce stop fuel st = some st' →
      st'.done - stMeasure st' = st.done - stMeasure st := by
  intro fuel
  induction fuel with
  | zero =>
      intro st st' h
      unfold runLoop at h
      split at h
      · exact absurd h (by simp)
      · injection h with h; subst h; rfl
  | succ n ih =>
      intro st st' h
      unfold runLoop at h
      split at h
      · rw [ih _ _ h, driverStep_invariant]
      · injection h with h; subst h; rfl

lemma runLoop_store_append (target : Int) (bs : Nat) (produce : Nat → Option Record)
    (stop : Nat → Bool) :
    ∀ (fuel : Nat) (st st' : DriverState) (es : List Entry),
      st.store = some es →
      runLoop target bs produce stop fuel st = some st' →
      ∃ ds, st'.store = some (es ++ ds) ∧ ∀ e ∈ ds, entryIsData e = true := by
  intro fuel
  induction fuel with
  | zero =>
      intro st st' es hes h
      unfold runLoop at h
      split at h
      · exact absurd h (by simp)
      · injection h with h; subst h
        exact ⟨[], by rw [hes, List.append_nil], by simp⟩
  | succ n ih =>
      intro st st' es hes h
      unfold runLoop at h
      split at h
      · obtain ⟨ds0, hst, hd0⟩ := driverStep_store_append bs produce st es hes
        obtain ⟨ds1, hst', hd1⟩ := ih _ _ _ hst h
        rw [List.append_assoc] at hst'
        refine ⟨ds0 ++ ds1, hst', ?_⟩
        intro e he
        rcases List.mem_append.mp he with h' | h'
        · exact hd0 e h'
        · exact hd1 e h'
      · injection h with h; subst h
        exact ⟨[], by rw [hes, List.append_nil], by simp⟩

lemma runLoop_total (target : Int) (bs : Nat) (produce : Nat → Option Record)
    (stop : Nat → Bool) (hp : ∀ i, (produce i).isSome) (hs : ∀ i, stop i = false) :
    ∀ (fuel : Nat) (st : DriverState), st.done + (fuel : Int) = target →
      ∃ st', runLoop target bs produce stop fuel st = some st' ∧ st'.done = target := by
  intro fuel
  induction fuel with
  | zero =>
      intro st h
      refine ⟨st, ?_, by omega⟩
      unfold runLoop
      rw [if_neg]
      intro hc
      have := hc.1
      omega
  | succ n ih =>
      intro st h
      have hcast : ((n + 1 : Nat) : Int) = (n : Int) + 1 := by push_cast; ring
      have hlt : st.done < target := by rw [hcast] at h; omega
      obtain ⟨r, hr⟩ := Option.isSome_iff_exists.mp (hp st.i)
      have hdone : (driverStep bs produce st).done = st.done + 1 :=
        driverStep_done_of_some bs produce st r hr
      obtain ⟨st', h1, h2⟩ := ih (driverStep bs produce st) (by rw [hdone]; rw [hcast] at h; omega)
      refine ⟨st', ?_, h2⟩
      unfold runLoop
      rw [if_pos ⟨hlt, hs st.i⟩]
      exact h1

lemma finalFlush_store_append (st : DriverState) (es : List Entry) (h : st.store = some es) :
    ∃ ds, finalFlush st = some (es ++ ds) ∧ ∀ e ∈ ds, entryIsData e = true := by
  unfold finalFlush
  split
  · exact ⟨[], by rw [h, List.append_nil], by simp⟩
  · exact ⟨st.batch.map Entry.data, by rw [h]; rfl, mem_map_data _⟩

lemma finalFlush_dataLen (st : DriverState) :
    dataLen (finalFlush st) = dataLen st.store + st.batch.length := by
  unfold finalFlush
  split
  · next h => simp [List.isEmpty_iff.mp h]
  · exact dataLen_saveBatch _ _

lemma generateLevel_eq_some (target : Int) (bs fuel : Nat) (produce : Nat → Option Record)
    (stop : Nat → Bool) (s0 : Store) (st' : DriverState)
    (h : runLoop target bs produce stop fuel (initState s0) = some st') :
    generateLevel target bs produce stop fuel s0 = some (finalFlush st') := by
  unfold generateLevel
  rw [h]
  rfl

lemma generateLevel_store_append (target : Int) (bs fuel : Nat)
    (produce : Nat → Option Record) (stop : Nat → Bool) (es : List Entry) (s' : Store)
    (h : generateLevel target bs produce stop fuel (some es) = some s') :
    ∃ ds, s' = some (es ++ ds) ∧ ∀ e ∈ ds, entryIsData e = true := by
  unfold generateLevel at h
  obtain ⟨st', hrun, hmap⟩ := Option.map_eq_some'.mp h
  obtain ⟨ds0, hst, hd0⟩ := runLoop_store_append target bs produce stop fuel _ st' es rfl hrun
  obtain ⟨ds1, hff, hd1⟩ := finalFlush_store_append st' _ hst
  rw [List.append_assoc] at hff
  refine ⟨ds0 ++ ds1, by rw [← hmap, hff], ?_⟩
  intro e he
  rcases List.mem_append.mp he with h' | h'
  · exact hd0 e h'
  · exact hd1 e h'

lemma countP_eq_len_of_data : ∀ (l : List Entry), (∀ e ∈ l, entryIsData e = true) →
    l.countP entryIsData = l.length := by
  intro l
  induction l with
  | nil => intro _; rfl
  | cons e es ih =>
      intro h
      have he : entryIsData e = true := h e (List.mem_cons_self _ _)
      simp [List.countP_cons, he, ih fun x hx => h x (List.mem_cons_of_mem _ hx)]

/-! ### Claim theorems about the Tier Driver -/

/-- C3: with the durable store holding a header row and exactly `k` data
rows and target `n > k`, a restarted driver whose producer always succeeds
and that is never cancelled terminates in exactly `n − k` iterations and
persists exactly `n − k` additional data rows (appended after the existing
rows). -/
theorem generateLevel_resumes_exactly (k n bs : Nat) (produce : Nat → Option Record)
    (stop : Nat → Bool) (rows : List Entry)
    (hk : rows.length = k)
    (hrows : ∀ e ∈ rows, entryIsData e = true)
    (hkn : k < n)
    (hp : ∀ i, (produce i).isSome)
    (hs : ∀ i, stop i = false) :
    ∃ ds, generateLevel ((n : Nat) : Int) bs produce stop (n - k)
        (some (Entry.header :: rows)) =
        some (some (Entry.header :: rows ++ ds)) ∧
      ds.length = n - k ∧ ∀ e ∈ ds, entryIsData e = true := by
  have hdone0 : (initState (some (Entry.header :: rows))).done = (k : Int) := by
    simp [initState, doneInit, hk]
  have hfuel : (initState (some (Entry.header :: rows))).done + ((n - k : Nat) : Int) =
      ((n : Nat) : Int) := by
    rw [hdone0]; omega
  obtain ⟨st', hrun, hdone'⟩ :=
    runLoop_total ((n : Nat) : Int) bs produce stop hp hs (n - k) _ hfuel
  have hinv := runLoop_invariant ((n : Nat) : Int) bs produce stop (n - k) _ st' hrun
  obtain ⟨ds0, hst, hd0⟩ := runLoop_store_append ((n : Nat) : Int) bs produce stop (n - k) _ st'
    (Entry.header :: rows) rfl hrun
  obtain ⟨ds1, hff, hd1⟩ := finalFlush_store_append st' _ hst
  rw [List.append_assoc] at hff
  have hgl := generateLevel_eq_some ((n : Nat) : Int) bs (n - k) produce stop _ st' hrun
  have hdata : ∀ e ∈ ds0 ++ ds1, entryIsData e = true := fun e he =>
    (List.mem_append.mp he).elim (hd0 e) (hd1 e)
  refine ⟨ds0 ++ ds1, by rw [hgl, hff], ?_, hdata⟩
  have hcount : (Entry.header :: rows).countP entryIsData = k := by
    simp [List.countP_cons, entryIsData, countP_eq_len_of_data rows hrows, hk]
  have hm0 : stMeasure (initState (some (Entry.header :: rows))) = (k : Int) := by
    simp [stMeasure, initState, dataLen, hcount]
  rw [hdone', hdone0, hm0] at hinv
  have hm' : (dataLen st'.store : Int) + st'.batch.length = ((n : Nat) : Int) := by
    simp only [stMeasure] at hinv
    omega
  have hdl : dataLen (finalFlush st') = n := by
    have h2 := finalFlush_dataLen st'
    omega
  rw [hff] at hdl
  have h3 : dataLen (some ((Entry.header :: rows) ++ (ds0 ++ ds1))) =
      k + (ds0 ++ ds1).length := by
    simp [dataLen, List.countP_append, List.countP_cons, entryIsData,
      countP_eq_len_of_data rows hrows, countP_eq_len_of_data _ hdata, hk]
  rw [h3] at hdl
  omega

/-- C3 witness: a store with one existing data row and target 3 gains
exactly two more data rows. -/
theorem generateLevel_resumes_exactly_witness :
    ∃ ds, generateLevel ((3 : Nat) : Int) 2 (fun _ => some sampleRecord) (fun _ => false)
        (3 - 1) (some (Entry.header :: [Entry.data sampleRecord])) =
        some (some (Entry.header :: [Entry.data sampleRecord] ++ ds)) ∧
      ds.length = 3 - 1 ∧ ∀ e ∈ ds, entryIsData e = true :=
  generateLevel_resumes_exactly 1 3 2 (fun _ => some sampleRecord) (fun _ => false)
    [Entry.data sampleRecord] rfl (by decide) (by decide) (fun _ => rfl) (fun _ => rfl)

/-- C10: when the tier's store file exists but has zero lines, the resumed
count is the line count minus one, i.e. `−1` rather than `0`, so with an
always-successful producer and no cancellation the driver persists
`target + 1` data rows before stopping (and, the file existing, writes no
header). -/
theorem generateLevel_empty_store_off_by_one (target bs : Nat)
    (produce : Nat → Option Record) (stop : Nat → Bool)
    (hp : ∀ i, (produce i).isSome) (hs : ∀ i, stop i = false) :
    doneInit (some []) = -1 ∧
    ∃ ds, generateLevel ((target : Nat) : Int) bs produce stop (target + 1)
        (some ([] : List Entry)) = some (some ds) ∧
      ds.length = target + 1 ∧ ∀ e ∈ ds, entryIsData e = true := by
  refine ⟨by decide, ?_⟩
  have hdone0 : (initState (some ([] : List Entry))).done = -1 := by decide
  have hfuel : (initState (some ([] : List Entry))).done + ((target + 1 : Nat) : Int) =
      ((target : Nat) : Int) := by
    rw [hdone0]; omega
  obtain ⟨st', hrun, hdone'⟩ :=
    runLoop_total ((target : Nat) : Int) bs produce stop hp hs (target + 1) _ hfuel
  have hinv := runLoop_invariant ((target : Nat) : Int) bs produce stop (target + 1) _ st' hrun
  obtain ⟨ds0, hst, hd0⟩ := runLoop_store_append ((target : Nat) : Int) bs produce stop
    (target + 1) _ st' [] rfl hrun
  obtain ⟨ds1, hff, hd1⟩ := finalFlush_store_append st' _ hst
  rw [List.append_assoc] at hff
  have hgl := generateLevel_eq_some ((target : Nat) : Int) bs (target + 1) produce stop _ st' hrun
  have hdata : ∀ e ∈ ds0 ++ ds1, entryIsData e = true := fun e he =>
    (List.mem_append.mp he).elim (hd0 e) (hd1 e)
  have hm0 : stMeasure (initState (some ([] : List Entry))) = 0 := by decide
  rw [hdone', hdone0, hm0] at hinv
  have hm' : (dataLen st'.store : Int) + st'.batch.length = ((target : Nat) : Int) + 1 := by
    simp only [stMeasure] at hinv
    omega
  have hdl : dataLen (finalFlush st') = target + 1 := by
    have h2 := finalFlush_dataLen st'
    omega
  rw [hff] at hdl
  have h3 : dataLen (some (([] : List Entry) ++ (ds0 ++ ds1))) = (ds0 ++ ds1).length := by
    simp [dataLen, countP_eq_len_of_data _ hdata]
  rw [h3] at hdl
  exact ⟨ds0 ++ ds1, by rw [hgl, hff]; simp, hdl, hdata⟩

/-- C10 witness: a store that exists with zero rows and target 2 ends up
with three data rows and no header. -/
theorem generateLevel_empty_store_off_by_one_witness :
    doneInit (some []) = -1 ∧
    ∃ ds, generateLevel ((2 : Nat) : Int) 10 (fun _ => some sampleRecord) (fun _ => false)
        (2 + 1) (some ([] : List Entry)) = some (some ds) ∧
      ds.length = 2 + 1 ∧ ∀ e ∈ ds, entryIsData e = true :=
  generateLevel_empty_store_off_by_one 2 10 (fun _ => some sampleRecord) (fun _ => false)
    (fun _ => rfl) (fun _ => rfl)

/-- C4: when the accumulation loop exits while the cancellation flag is
set, any record still in the in-memory batch is flushed: it appears in the
durable store that `generate_level` leaves behind. -/
theorem generateLevel_flushes_on_cancel (target : Int) (bs fuel : Nat)
    (produce : Nat → Option Record) (stop : Nat → Bool) (s0 : Store)
    (st : DriverState) (r : Record)
    (hrun : runLoop target bs produce stop fuel (initState s0) = some st)
    (_hstop : stop st.i = true)
    (hr : r ∈ st.batch) :
    ∃ es, generateLevel target bs produce stop fuel s0 = some (some es) ∧
      Entry.data r ∈ es := by
  have hgl := generateLevel_eq_some target bs fuel produce stop s0 st hrun
  have hne : st.batch.isEmpty = false := by
    cases hb : st.batch with
    | nil => rw [hb] at hr; simp at hr
    | cons a l => rfl
  have hql : finalFlush st = saveBatch st.batch st.store := by
    simp [finalFlush, hne]
  rw [hql] at hgl
  cases hs0 : st.store with
  | none =>
      rw [hs0] at hgl
      exact ⟨Entry.header :: st.batch.map Entry.data, hgl,
        List.mem_cons_of_mem _ (List.mem_map_of_mem _ hr)⟩
  | some es0 =>
      rw [hs0] at hgl
      exact ⟨es0 ++ st.batch.map Entry.data, hgl,
        List.mem_append_right _ (List.mem_map_of_mem _ hr)⟩

/-- C4 witness: cancellation observed at the third loop check leaves a
two-record batch, and the record appears in the flushed store. -/
theorem generateLevel_flushes_on_cancel_witness :
    ∃ es, generateLevel 10 5 (fun _ => some sampleRecord) (fun i => decide (2 ≤ i)) 2 none =
        some (some es) ∧ Entry.data sampleRecord ∈ es :=
  generateLevel_flushes_on_cancel 10 5 2 (fun _ => some sampleRecord) (fun i => decide (2 ≤ i))
    none ⟨2, [sampleRecord, sampleRecord], none, 2⟩ sampleRecord
    (by decide) (by decide) (by decide)

/-- C7: restarting a completed run against the same durable store only
appends data rows: the header row is never re-written (none of the new
rows is a header) and the on-disk row count never decreases. -/
theorem generateLevel_restart_append_only (t1 t2 : Int) (b1 b2 f1 f2 : Nat)
    (pr1 pr2 : Nat → Option Record) (sp1 sp2 : Nat → Bool)
    (s0 : Store) (es1 : List Entry) (s2 : Store)
    (_hrun1 : generateLevel t1 b1 pr1 sp1 f1 s0 = some (some es1))
    (hrun2 : generateLevel t2 b2 pr2 sp2 f2 (some es1) = some s2) :
    ∃ ds, s2 = some (es1 ++ ds) ∧ Entry.header ∉ ds := by
  obtain ⟨ds, hds, hdata⟩ := generateLevel_store_append t2 b2 f2 pr2 sp2 es1 s2 hrun2
  refine ⟨ds, hds, fun hmem => ?_⟩
  have := hdata _ hmem
  simp [entryIsData] at this

/-- C7 witness: a completed one-record run restarted against its own
output store appends nothing and keeps the single header row. -/
theorem generateLevel_restart_append_only_witness :
    ∃ ds, (some [Entry.header, Entry.data sampleRecord] : Store) =
        some ([Entry.header, Entry.data sampleRecord] ++ ds) ∧ Entry.header ∉ ds :=
  generateLevel_restart_append_only 1 1 1 1 1 1 (fun _ => some sampleRecord)
    (fun _ => some sampleRecord) (fun _ => false) (fun _ => false) none
    [Entry.header, Entry.data sampleRecord] (some [Entry.header, Entry.data sampleRecord])
    (by decide) (by decide)

end CharDesc
